import Mathlib

/-!
# Step-sequence generator (`dyn::owning_step_iterator`)

A shallow embedding of `include/iterator.h`.

* The template parameter `Model` becomes the structure `Model`; the template
  template parameter `Stepper` becomes `Stepper M`, whose `do_step` returns the
  state it leaves behind in its in/out argument.
* `Duration` is a `std::chrono::duration`; a duration value is its tick count.
  The conversion to seconds in the model's real type (the lambda `as_real` of
  `increment`) is carried by `Duration M`.
* Tick counts come in two readings.  `increment`, `advance_n` and `iterate` add
  ticks as unbounded integers.  `increment_fixed`, `advance_n_fixed` and
  `iterate_fixed` add them in a signed two's-complement rep with `digits` value
  bits (15 for `int16_t`, 63 for `int64_t`), where `elapsed_ += step_` wraps;
  `fits` says that a tick count is a value of that rep.
* Member functions that mutate `*this` return the iterator they leave behind.
-/

namespace dyn

/-- The `Model` template parameter: the associated types, `state_transition`,
and the value-initialised state and input (`{}`) that the default member
initialisers use. -/
structure Model where
  state : Type
  input : Type
  system : Type
  real_type : Type
  state_transition : input → system
  state_default : state
  input_default : input

/-- The `Stepper` template parameter. `stepper_type{}.do_step(system, x, t, dt)`
updates `x` in place; the embedding returns the updated `x`. -/
structure Stepper (M : Model) where
  do_step : M.system → M.state → M.real_type → M.real_type → M.state

/-- The `Duration` template parameter, seen through the only conversion the
iterator performs on it:
`duration_cast<duration<real_type>>(d).count()` on a tick count `d`. -/
structure Duration (M : Model) where
  as_real : Int → M.real_type

/-- The data members of `owning_step_iterator`, in declaration order. -/
structure owning_step_iterator (M : Model) where
  state_ : M.state
  system_ : M.system
  span_ : Int
  step_ : Int
  elapsed_ : Int

/-- The pair of iterators held by the local `range` struct of
`adapt_rangepair`. -/
structure range (Iterator : Type) where
  begin_ : Iterator
  end_ : Iterator

section
variable {M : Model}

/-- `owning_step_iterator(x0, u, span, step)`: the member initialiser list sets
`state_`, `system_`, `span_`, `step_`; `elapsed_` keeps its default `{}`. -/
def construct (x0 : M.state) (u : M.input) (span step : Int) : owning_step_iterator M :=
  { state_ := x0
    system_ := M.state_transition u
    span_ := span
    step_ := step
    elapsed_ := 0 }

/-- `owning_step_iterator() = default`: every member takes its default member
initialiser. -/
def default_construct : owning_step_iterator M :=
  { state_ := M.state_default
    system_ := M.state_transition M.input_default
    span_ := 0
    step_ := 0
    elapsed_ := 0 }

/-- `at_end()`: `elapsed_ >= span_`. -/
def at_end (g : owning_step_iterator M) : Bool :=
  decide (g.elapsed_ ≥ g.span_)

/-- `operator==`. -/
def op_eq (self other : owning_step_iterator M) : Bool :=
  if at_end other then
    at_end self
  else
    (self.span_ == other.span_) && (self.step_ == other.step_) &&
      (self.elapsed_ == other.elapsed_)

/-- `operator!=`. -/
def op_ne (self other : owning_step_iterator M) : Bool :=
  !(op_eq self other)

/-- `operator*`: the pair `(elapsed_, state_)`. -/
def op_deref (g : owning_step_iterator M) : Int × M.state :=
  (g.elapsed_, g.state_)

/-- `increment()`. -/
def increment (S : Stepper M) (D : Duration M) (g : owning_step_iterator M) :
    owning_step_iterator M :=
  let t := D.as_real g.elapsed_
  let dt := D.as_real g.step_
  let x := S.do_step g.system_ g.state_ t dt
  { g with state_ := x, elapsed_ := g.elapsed_ + g.step_ }

/-- `operator++()`: increments and returns `*this`. -/
def pre_increment (S : Stepper M) (D : Duration M) (g : owning_step_iterator M) :
    owning_step_iterator M :=
  increment S D g

/-- `operator++(int)`: the returned copy, then the iterator left behind. -/
def post_increment (S : Stepper M) (D : Duration M) (g : owning_step_iterator M) :
    owning_step_iterator M × owning_step_iterator M :=
  let self := g
  (self, increment S D g)

/-- The iterator after `n` calls of `operator++`. -/
def advance_n (S : Stepper M) (D : Duration M) :
    Nat → owning_step_iterator M → owning_step_iterator M
  | 0, g => g
  | n + 1, g => advance_n S D n (pre_increment S D g)

/-- `adapt_rangepair`. -/
def adapt_rangepair {Iterator : Type} (rp : Iterator × Iterator) : range Iterator :=
  { begin_ := rp.1, end_ := rp.2 }

/-- `range::begin()`. -/
def range.begin {Iterator : Type} (r : range Iterator) : Iterator := r.begin_

/-- `range::end()`. -/
def range.end {Iterator : Type} (r : range Iterator) : Iterator := r.end_

/-- `make_owning_step_range`. -/
def make_owning_step_range (x0 : M.state) (u : M.input) (span step : Int) :
    range (owning_step_iterator M) :=
  adapt_rangepair (construct x0 u span step, default_construct)

/-- The traversal a consumer performs on the iterator pair,
`for (; it != last; ++it) use(*it);`, collecting the observed pairs by value.
The loop need not stop, so it runs on fuel: `none` means the fuel ran out
before `it` compared equal to `last`. -/
def iterate (S : Stepper M) (D : Duration M) :
    Nat → owning_step_iterator M → owning_step_iterator M → Option (List (Int × M.state))
  | 0, _, _ => none
  | fuel + 1, it, last =>
    if op_ne it last then
      (iterate S D fuel (pre_increment S D it) last).map (fun rest => op_deref it :: rest)
    else
      some []

/-- The first `n` observations of a traversal that starts at `g`. -/
def observations (S : Stepper M) (D : Duration M) :
    Nat → owning_step_iterator M → List (Int × M.state)
  | 0, _ => []
  | n + 1, g => op_deref g :: observations S D n (pre_increment S D g)

/-- The values of a signed two's-complement rep with `digits` value bits:
`-2 ^ digits ≤ x < 2 ^ digits`. -/
def fits (digits : Nat) (x : Int) : Prop :=
  -(2 : Int) ^ digits ≤ x ∧ x < (2 : Int) ^ digits

instance fits_decidable (digits : Nat) (x : Int) : Decidable (fits digits x) :=
  inferInstanceAs (Decidable (-(2 : Int) ^ digits ≤ x ∧ x < (2 : Int) ^ digits))

/-- The value a signed two's-complement rep with `digits` value bits holds
after an arithmetic result `x`: `x` reduced modulo `2 ^ (digits + 1)` into
`[-2 ^ digits, 2 ^ digits)`. -/
def wrap (digits : Nat) (x : Int) : Int :=
  (x + 2 ^ digits) % 2 ^ (digits + 1) - 2 ^ digits

/-- `increment()` on a rep with `digits` value bits: `elapsed_ += step_` wraps. -/
def increment_fixed (digits : Nat) (S : Stepper M) (D : Duration M)
    (g : owning_step_iterator M) : owning_step_iterator M :=
  let t := D.as_real g.elapsed_
  let dt := D.as_real g.step_
  let x := S.do_step g.system_ g.state_ t dt
  { g with state_ := x, elapsed_ := wrap digits (g.elapsed_ + g.step_) }

/-- `operator++()` on a rep with `digits` value bits. -/
def pre_increment_fixed (digits : Nat) (S : Stepper M) (D : Duration M)
    (g : owning_step_iterator M) : owning_step_iterator M :=
  increment_fixed digits S D g

/-- `operator++(int)` on a rep with `digits` value bits: the returned copy,
then the iterator left behind. -/
def post_increment_fixed (digits : Nat) (S : Stepper M) (D : Duration M)
    (g : owning_step_iterator M) : owning_step_iterator M × owning_step_iterator M :=
  let self := g
  (self, increment_fixed digits S D g)

/-- The iterator after `n` calls of `operator++` on a rep with `digits` value
bits. -/
def advance_n_fixed (digits : Nat) (S : Stepper M) (D : Duration M) :
    Nat → owning_step_iterator M → owning_step_iterator M
  | 0, g => g
  | n + 1, g => advance_n_fixed digits S D n (pre_increment_fixed digits S D g)

/-- The consumer's traversal `for (; it != last; ++it) use(*it);` on a rep with
`digits` value bits, on fuel as `iterate` is. -/
def iterate_fixed (digits : Nat) (S : Stepper M) (D : Duration M) :
    Nat → owning_step_iterator M → owning_step_iterator M → Option (List (Int × M.state))
  | 0, _, _ => none
  | fuel + 1, it, last =>
    if op_ne it last then
      (iterate_fixed digits S D fuel (pre_increment_fixed digits S D it) last).map
        (fun rest => op_deref it :: rest)
    else
      some []

/-- The first `n` observations of a traversal that starts at `g`, on a rep
with `digits` value bits. -/
def observations_fixed (digits : Nat) (S : Stepper M) (D : Duration M) :
    Nat → owning_step_iterator M → List (Int × M.state)
  | 0, _ => []
  | n + 1, g =>
    op_deref g :: observations_fixed digits S D n (pre_increment_fixed digits S D g)

/-- The `k`-fold application of the stepper to `x0`, written without the
iterator: the `j`-th application (from 0) is `do_step` on the fixed system at
time `as_real (j * step)` with step size `as_real step`. -/
def stepper_fold (S : Stepper M) (D : Duration M) (sys : M.system) (step : Int)
    (x0 : M.state) : Nat → M.state
  | 0 => x0
  | k + 1 =>
    S.do_step sys (stepper_fold S D sys step x0 k) (D.as_real ((k : Int) * step))
      (D.as_real step)

end

/-! ## A concrete instantiation: exponential decay with explicit Euler -/

/-- The model `dx/dt = -x` over the rationals; the system is its right-hand side. -/
def decay : Model :=
  { state := ℚ
    input := Unit
    system := ℚ → ℚ
    real_type := ℚ
    state_transition := fun _ => fun x => -x
    state_default := 0
    input_default := () }

/-- Explicit Euler: `x += dt * f(x)`. -/
def euler : Stepper decay :=
  { do_step := fun (f : ℚ → ℚ) (x : ℚ) (_t : ℚ) (dt : ℚ) => x + dt * f x }

/-- Durations in milliseconds (`std::chrono::milliseconds`): a tick count `d`
is `d / 1000` seconds. -/
def milliseconds : Duration decay :=
  { as_real := fun d => (d : ℚ) / 1000 }

/-- A live generator of the decay model: one second in steps of half a second. -/
def live : owning_step_iterator decay := construct (1 : ℚ) () 1000 500

/-- The model `dx/dt = -u * x` over the rationals, whose input `u` is the decay
rate: different inputs give different systems. -/
def relax : Model :=
  { state := ℚ
    input := ℚ
    system := ℚ → ℚ
    real_type := ℚ
    state_transition := fun u => fun x => -(u * x)
    state_default := 0
    input_default := 0 }

/-! ## Lemmas on the embedding -/

section
variable {M : Model} (S : Stepper M) (D : Duration M)

theorem at_end_iff (g : owning_step_iterator M) : at_end g = true ↔ g.span_ ≤ g.elapsed_ := by
  simp [at_end]

theorem at_end_eq_false_iff (g : owning_step_iterator M) :
    at_end g = false ↔ g.elapsed_ < g.span_ := by
  simp [at_end]

theorem at_end_default : at_end (default_construct : owning_step_iterator M) = true := by
  simp [at_end, default_construct]

theorem op_eq_default (g : owning_step_iterator M) :
    op_eq g default_construct = at_end g := by
  simp [op_eq, at_end_default]

theorem op_ne_default (g : owning_step_iterator M) :
    op_ne g default_construct = !(at_end g) := by
  simp [op_ne, op_eq_default]

theorem advance_n_succ (n : Nat) (g : owning_step_iterator M) :
    advance_n S D (n + 1) g = pre_increment S D (advance_n S D n g) := by
  induction n generalizing g with
  | zero => rfl
  | succ k ih =>
    calc advance_n S D (k + 1 + 1) g
        = advance_n S D (k + 1) (pre_increment S D g) := rfl
      _ = pre_increment S D (advance_n S D k (pre_increment S D g)) := ih _
      _ = pre_increment S D (advance_n S D (k + 1) g) := rfl

theorem advance_n_span (n : Nat) (g : owning_step_iterator M) :
    (advance_n S D n g).span_ = g.span_ := by
  induction n generalizing g with
  | zero => rfl
  | succ k ih => simpa [advance_n, pre_increment, increment] using ih (pre_increment S D g)

theorem advance_n_step (n : Nat) (g : owning_step_iterator M) :
    (advance_n S D n g).step_ = g.step_ := by
  induction n generalizing g with
  | zero => rfl
  | succ k ih => simpa [advance_n, pre_increment, increment] using ih (pre_increment S D g)

theorem advance_n_elapsed (n : Nat) (g : owning_step_iterator M) :
    (advance_n S D n g).elapsed_ = g.elapsed_ + n * g.step_ := by
  induction n generalizing g with
  | zero => simp [advance_n]
  | succ k ih =>
    have h := ih (pre_increment S D g)
    have e : (pre_increment S D g).elapsed_ = g.elapsed_ + g.step_ := rfl
    have s : (pre_increment S D g).step_ = g.step_ := rfl
    calc (advance_n S D (k + 1) g).elapsed_
        = (advance_n S D k (pre_increment S D g)).elapsed_ := rfl
      _ = g.elapsed_ + g.step_ + k * g.step_ := by rw [h, e, s]
      _ = g.elapsed_ + ((k + 1 : Nat) : Int) * g.step_ := by push_cast; ring

theorem observations_length (n : Nat) (g : owning_step_iterator M) :
    (observations S D n g).length = n := by
  induction n generalizing g with
  | zero => rfl
  | succ k ih => simp [observations, ih]

theorem iterate_succ_live (fuel : Nat) (g : owning_step_iterator M) (h : at_end g = false) :
    iterate S D (fuel + 1) g default_construct =
      (iterate S D fuel (pre_increment S D g) default_construct).map
        (fun rest => op_deref g :: rest) := by
  simp [iterate, op_ne_default, h]

theorem iterate_succ_done (fuel : Nat) (g : owning_step_iterator M) (h : at_end g = true) :
    iterate S D (fuel + 1) g default_construct = some [] := by
  simp [iterate, op_ne_default, h]

/-- A traversal whose iterator first reaches its end after `n` increments
returns, on any fuel above `n`, exactly the first `n` observations. -/
theorem iterate_eq_observations (n : Nat) :
    ∀ (g : owning_step_iterator M) (fuel : Nat), n < fuel →
      (∀ k, k < n → at_end (advance_n S D k g) = false) →
      at_end (advance_n S D n g) = true →
      iterate S D fuel g default_construct = some (observations S D n g) := by
  induction n with
  | zero =>
    intro g fuel hf _ hend
    obtain ⟨f, rfl⟩ : ∃ f, fuel = f + 1 := ⟨fuel - 1, by omega⟩
    exact iterate_succ_done S D f g hend
  | succ n ih =>
    intro g fuel hf hlive hend
    obtain ⟨f, rfl⟩ : ∃ f, fuel = f + 1 := ⟨fuel - 1, by omega⟩
    have h0 : at_end g = false := hlive 0 (Nat.succ_pos n)
    have hrec := ih (pre_increment S D g) f (by omega)
      (fun k hk => hlive (k + 1) (by omega)) hend
    rw [iterate_succ_live S D f g h0, hrec]
    rfl

/-- A traversal whose iterator never reaches its end exhausts every fuel. -/
theorem iterate_eq_none (fuel : Nat) :
    ∀ (g : owning_step_iterator M), (∀ k, at_end (advance_n S D k g) = false) →
      iterate S D fuel g default_construct = none := by
  induction fuel with
  | zero => intro g _; rfl
  | succ f ih =>
    intro g hlive
    have hrec := ih (pre_increment S D g) (fun k => hlive (k + 1))
    rw [iterate_succ_live S D f g (hlive 0), hrec]
    rfl

theorem advance_n_system (n : Nat) (g : owning_step_iterator M) :
    (advance_n S D n g).system_ = g.system_ := by
  induction n generalizing g with
  | zero => rfl
  | succ k ih =>
    calc (advance_n S D (k + 1) g).system_
        = (advance_n S D k (pre_increment S D g)).system_ := rfl
      _ = (pre_increment S D g).system_ := ih _
      _ = g.system_ := rfl

/-- The state after `k` increments is the `k`-fold application of the stepper
to the state the generator started from. -/
theorem advance_n_state (k : Nat) (g : owning_step_iterator M) (h0 : g.elapsed_ = 0) :
    (advance_n S D k g).state_ = stepper_fold S D g.system_ g.step_ g.state_ k := by
  induction k with
  | zero => rfl
  | succ k ih =>
    have he : (advance_n S D k g).elapsed_ = (k : Int) * g.step_ := by
      rw [advance_n_elapsed, h0, zero_add]
    calc (advance_n S D (k + 1) g).state_
        = (pre_increment S D (advance_n S D k g)).state_ := by rw [advance_n_succ]
      _ = S.do_step (advance_n S D k g).system_ (advance_n S D k g).state_
            (D.as_real (advance_n S D k g).elapsed_)
            (D.as_real (advance_n S D k g).step_) := rfl
      _ = S.do_step g.system_ (stepper_fold S D g.system_ g.step_ g.state_ k)
            (D.as_real ((k : Int) * g.step_)) (D.as_real g.step_) := by
          rw [advance_n_system, advance_n_step, ih, he]
      _ = stepper_fold S D g.system_ g.step_ g.state_ (k + 1) := rfl

/-- The first `n` observations are the dereferenced iterators after
`0, 1, …, n - 1` increments. -/
theorem observations_eq_map (n : Nat) (g : owning_step_iterator M) :
    observations S D n g = (List.range n).map (fun k => op_deref (advance_n S D k g)) := by
  induction n generalizing g with
  | zero => rfl
  | succ n ih =>
    rw [List.range_succ_eq_map, List.map_cons, List.map_map]
    show op_deref g :: observations S D n (pre_increment S D g) = _
    rw [ih]
    rfl

/-- What `operator==` decides: both operands at their end, or both live with
the same span, step and elapsed time. -/
theorem op_eq_iff (a b : owning_step_iterator M) :
    op_eq a b = true ↔
      (at_end a = true ∧ at_end b = true) ∨
        (at_end a = false ∧ at_end b = false ∧
          a.span_ = b.span_ ∧ a.step_ = b.step_ ∧ a.elapsed_ = b.elapsed_) := by
  cases hb : at_end b
  · have hb2 := (at_end_eq_false_iff b).1 hb
    have hq : op_eq a b = true ↔
        a.span_ = b.span_ ∧ a.step_ = b.step_ ∧ a.elapsed_ = b.elapsed_ := by
      simp [op_eq, hb, and_assoc]
    rw [hq]
    constructor
    · rintro ⟨h1, h2, h3⟩
      refine Or.inr ⟨?_, rfl, h1, h2, h3⟩
      rw [at_end_eq_false_iff]
      omega
    · rintro (⟨_, h⟩ | ⟨_, _, h⟩)
      · exact absurd h (by decide)
      · exact h
  · have hq : op_eq a b = at_end a := by simp [op_eq, hb]
    rw [hq]
    constructor
    · intro h
      exact Or.inl ⟨h, rfl⟩
    · rintro (⟨h, _⟩ | ⟨_, h, _⟩)
      · exact h
      · exact absurd h (by decide)

/-- The observation made after `k` increments of a constructed generator. -/
theorem op_deref_advance_n (x0 : M.state) (u : M.input) (span step : Int) (k : Nat) :
    op_deref (advance_n S D k (construct x0 u span step)) =
      ((k : Int) * step, stepper_fold S D (M.state_transition u) step x0 k) := by
  have h1 := advance_n_elapsed S D k (construct x0 u span step)
  have h2 := advance_n_state S D k (construct x0 u span step) rfl
  have h3 : (construct x0 u span step).elapsed_ + (k : Int) * (construct x0 u span step).step_ =
      (k : Int) * step := by
    show (0 : Int) + (k : Int) * step = (k : Int) * step
    omega
  show ((advance_n S D k (construct x0 u span step)).elapsed_,
    (advance_n S D k (construct x0 u span step)).state_) = _
  rw [h1, h2, h3]
  rfl

theorem at_end_advance_n (n : Nat) (g : owning_step_iterator M) :
    at_end (advance_n S D n g) = true ↔ g.span_ ≤ g.elapsed_ + n * g.step_ := by
  rw [at_end_iff, advance_n_span, advance_n_elapsed]

theorem at_end_advance_n_false (n : Nat) (g : owning_step_iterator M) :
    at_end (advance_n S D n g) = false ↔ g.elapsed_ + n * g.step_ < g.span_ := by
  rw [at_end_eq_false_iff, advance_n_span, advance_n_elapsed]

theorem construct_elapsed_after (x0 : M.state) (u : M.input) (span step : Int) (n : Nat) :
    (advance_n S D n (construct x0 u span step)).elapsed_ = n * step := by
  rw [advance_n_elapsed]
  simp [construct]

/-- The number of steps of size `step` needed to reach `span`: the ceiling of
the quotient is the least `n` with `span ≤ n * step`. -/
theorem ceil_steps (span step : Int) (hstep : 0 < step) (hspan : 0 < span) :
    ((⌈(span : ℚ) / (step : ℚ)⌉.toNat : Nat) : Int) = ⌈(span : ℚ) / (step : ℚ)⌉ ∧
      (∀ k : Nat, k < ⌈(span : ℚ) / (step : ℚ)⌉.toNat → (k : Int) * step < span) ∧
      span ≤ ((⌈(span : ℚ) / (step : ℚ)⌉.toNat : Nat) : Int) * step := by
  have hs : (0 : ℚ) < (step : ℚ) := by exact_mod_cast hstep
  have hp : (0 : ℚ) < (span : ℚ) := by exact_mod_cast hspan
  have hq : (0 : ℚ) ≤ (span : ℚ) / (step : ℚ) := le_of_lt (div_pos hp hs)
  have hc : (0 : Int) ≤ ⌈(span : ℚ) / (step : ℚ)⌉ := Int.ceil_nonneg hq
  have hn : ((⌈(span : ℚ) / (step : ℚ)⌉.toNat : Nat) : Int) = ⌈(span : ℚ) / (step : ℚ)⌉ :=
    Int.toNat_of_nonneg hc
  refine ⟨hn, ?_, ?_⟩
  · intro k hk
    have h1 : (k : Int) < ⌈(span : ℚ) / (step : ℚ)⌉ := by
      rw [← hn]
      exact_mod_cast hk
    have h2 : ((k : Int) : ℚ) < (span : ℚ) / (step : ℚ) := Int.lt_ceil.1 h1
    have h3 : ((k : Int) : ℚ) * (step : ℚ) < (span : ℚ) := (lt_div_iff₀ hs).1 h2
    exact_mod_cast h3
  · rw [hn]
    have h2 : (span : ℚ) / (step : ℚ) ≤ ((⌈(span : ℚ) / (step : ℚ)⌉ : Int) : ℚ) :=
      Int.le_ceil _
    have h3 : (span : ℚ) ≤ ((⌈(span : ℚ) / (step : ℚ)⌉ : Int) : ℚ) * (step : ℚ) :=
      (div_le_iff₀ hs).1 h2
    exact_mod_cast h3

/-! ### The fixed-width rep -/

theorem wrap_of_fits (digits : Nat) (x : Int) (h : fits digits x) : wrap digits x = x := by
  obtain ⟨h1, h2⟩ := h
  have hp : (2 : Int) ^ (digits + 1) = 2 * 2 ^ digits := by ring
  have hmod : (x + 2 ^ digits) % 2 ^ (digits + 1) = x + 2 ^ digits := by
    apply Int.emod_eq_of_lt
    · linarith
    · rw [hp]; linarith
  unfold wrap
  rw [hmod]
  ring

theorem increment_fixed_eq (digits : Nat) (g : owning_step_iterator M)
    (h : fits digits (g.elapsed_ + g.step_)) :
    increment_fixed digits S D g = increment S D g := by
  unfold increment_fixed increment
  rw [wrap_of_fits digits _ h]

theorem pre_increment_fixed_eq (digits : Nat) (g : owning_step_iterator M)
    (h : fits digits (g.elapsed_ + g.step_)) :
    pre_increment_fixed digits S D g = pre_increment S D g :=
  increment_fixed_eq S D digits g h

/-- While no sum leaves the rep, the fixed-width iterator is the unbounded one. -/
theorem advance_n_fixed_eq (digits : Nat) (n : Nat) :
    ∀ g : owning_step_iterator M,
      (∀ k : Nat, k < n → fits digits (g.elapsed_ + ((k : Int) + 1) * g.step_)) →
      advance_n_fixed digits S D n g = advance_n S D n g := by
  induction n with
  | zero => intro g _; rfl
  | succ n ih =>
    intro g hfit
    have h0 : fits digits (g.elapsed_ + g.step_) := by
      have := hfit 0 (Nat.succ_pos n)
      simpa using this
    have hstep : (pre_increment S D g).step_ = g.step_ := rfl
    have hel : (pre_increment S D g).elapsed_ = g.elapsed_ + g.step_ := rfl
    show advance_n_fixed digits S D n (pre_increment_fixed digits S D g) =
      advance_n S D n (pre_increment S D g)
    rw [pre_increment_fixed_eq S D digits g h0]
    apply ih
    intro k hk
    have := hfit (k + 1) (by omega)
    rw [hstep, hel]
    have e : g.elapsed_ + g.step_ + ((k : Int) + 1) * g.step_ =
        g.elapsed_ + (((k + 1 : Nat) : Int) + 1) * g.step_ := by push_cast; ring
    rw [e]
    exact this

theorem observations_fixed_length (digits : Nat) (n : Nat) (g : owning_step_iterator M) :
    (observations_fixed digits S D n g).length = n := by
  induction n generalizing g with
  | zero => rfl
  | succ k ih => simp [observations_fixed, ih]

theorem observations_fixed_eq (digits : Nat) (n : Nat) :
    ∀ g : owning_step_iterator M,
      (∀ k : Nat, k + 1 < n → fits digits (g.elapsed_ + ((k : Int) + 1) * g.step_)) →
      observations_fixed digits S D n g = observations S D n g := by
  induction n with
  | zero => intro g _; rfl
  | succ n ih =>
    intro g hfit
    show op_deref g :: observations_fixed digits S D n (pre_increment_fixed digits S D g) =
      op_deref g :: observations S D n (pre_increment S D g)
    cases n with
    | zero => rfl
    | succ m =>
      have h0 : fits digits (g.elapsed_ + g.step_) := by
        have := hfit 0 (by omega)
        simpa using this
      have hstep : (pre_increment S D g).step_ = g.step_ := rfl
      have hel : (pre_increment S D g).elapsed_ = g.elapsed_ + g.step_ := rfl
      rw [pre_increment_fixed_eq S D digits g h0]
      congr 1
      apply ih
      intro k hk
      have := hfit (k + 1) (by omega)
      rw [hstep, hel]
      have e : g.elapsed_ + g.step_ + ((k : Int) + 1) * g.step_ =
          g.elapsed_ + (((k + 1 : Nat) : Int) + 1) * g.step_ := by push_cast; ring
      rw [e]
      exact this

theorem iterate_fixed_succ_live (digits : Nat) (fuel : Nat) (g : owning_step_iterator M)
    (h : at_end g = false) :
    iterate_fixed digits S D (fuel + 1) g default_construct =
      (iterate_fixed digits S D fuel (pre_increment_fixed digits S D g) default_construct).map
        (fun rest => op_deref g :: rest) := by
  simp [iterate_fixed, op_ne_default, h]

theorem iterate_fixed_succ_done (digits : Nat) (fuel : Nat) (g : owning_step_iterator M)
    (h : at_end g = true) :
    iterate_fixed digits S D (fuel + 1) g default_construct = some [] := by
  simp [iterate_fixed, op_ne_default, h]

/-- A fixed-width traversal whose iterator first reaches its end after `n`
increments returns, on any fuel above `n`, exactly the first `n` observations. -/
theorem iterate_fixed_eq_observations (digits : Nat) (n : Nat) :
    ∀ (g : owning_step_iterator M) (fuel : Nat), n < fuel →
      (∀ k, k < n → at_end (advance_n_fixed digits S D k g) = false) →
      at_end (advance_n_fixed digits S D n g) = true →
      iterate_fixed digits S D fuel g default_construct =
        some (observations_fixed digits S D n g) := by
  induction n with
  | zero =>
    intro g fuel hf _ hend
    obtain ⟨f, rfl⟩ : ∃ f, fuel = f + 1 := ⟨fuel - 1, by omega⟩
    exact iterate_fixed_succ_done S D digits f g hend
  | succ n ih =>
    intro g fuel hf hlive hend
    obtain ⟨f, rfl⟩ : ∃ f, fuel = f + 1 := ⟨fuel - 1, by omega⟩
    have h0 : at_end g = false := hlive 0 (Nat.succ_pos n)
    have hrec := ih (pre_increment_fixed digits S D g) f (by omega)
      (fun k hk => hlive (k + 1) (by omega)) hend
    rw [iterate_fixed_succ_live S D digits f g h0, hrec]
    rfl

theorem advance_n_fixed_succ (digits : Nat) (n : Nat) (g : owning_step_iterator M) :
    advance_n_fixed digits S D (n + 1) g =
      pre_increment_fixed digits S D (advance_n_fixed digits S D n g) := by
  induction n generalizing g with
  | zero => rfl
  | succ k ih =>
    calc advance_n_fixed digits S D (k + 1 + 1) g
        = advance_n_fixed digits S D (k + 1) (pre_increment_fixed digits S D g) := rfl
      _ = pre_increment_fixed digits S D
            (advance_n_fixed digits S D k (pre_increment_fixed digits S D g)) := ih _
      _ = pre_increment_fixed digits S D (advance_n_fixed digits S D (k + 1) g) := rfl

/-- With a non-negative step, a start inside the rep and a last sum below its
upper end, every sum on the way is inside the rep. -/
theorem fits_between (digits : Nat) (e step : Int) (n k : Nat) (hstep : 0 ≤ step)
    (hwf : fits digits e) (hfit : e + (n : Int) * step < 2 ^ digits) (hk : k < n) :
    fits digits (e + ((k : Int) + 1) * step) := by
  have h1 : (0 : Int) ≤ ((k : Int) + 1) * step :=
    mul_nonneg (by have := Int.ofNat_nonneg k; omega) hstep
  have h2 : ((k : Int) + 1) * step ≤ (n : Int) * step :=
    mul_le_mul_of_nonneg_right (by exact_mod_cast hk) hstep
  exact ⟨by have := hwf.1; linarith, by linarith⟩

/-- A traversal on the fixed-width rep whose elapsed time reaches the span
without leaving the rep: it returns the observations of the unbounded
traversal, and the iterator it stops at is the unbounded one. -/
theorem iterate_fixed_construct (digits : Nat) (x0 : M.state) (u : M.input)
    (span step : Int) (hstep : 0 < step) (hspan : 0 < span)
    (hfit : ⌈(span : ℚ) / (step : ℚ)⌉ * step < 2 ^ digits) :
    (∀ fuel : Nat, ⌈(span : ℚ) / (step : ℚ)⌉.toNat < fuel →
        iterate_fixed digits S D fuel (construct x0 u span step) default_construct =
          some (observations S D ⌈(span : ℚ) / (step : ℚ)⌉.toNat
            (construct x0 u span step))) ∧
      advance_n_fixed digits S D ⌈(span : ℚ) / (step : ℚ)⌉.toNat (construct x0 u span step) =
        advance_n S D ⌈(span : ℚ) / (step : ℚ)⌉.toNat (construct x0 u span step) := by
  obtain ⟨hn, hlt, hge⟩ := ceil_steps span step hstep hspan
  have hpow : (0 : Int) < 2 ^ digits := by positivity
  have hwf : fits digits (construct x0 u span step).elapsed_ :=
    ⟨by show -(2 : Int) ^ digits ≤ 0; linarith, hpow⟩
  have hsum : (construct x0 u span step).elapsed_ +
      ((⌈(span : ℚ) / (step : ℚ)⌉.toNat : Nat) : Int) * (construct x0 u span step).step_ <
        2 ^ digits := by
    show (0 : Int) + ((⌈(span : ℚ) / (step : ℚ)⌉.toNat : Nat) : Int) * step < 2 ^ digits
    rw [hn]
    linarith
  have hfits : ∀ k : Nat, k < ⌈(span : ℚ) / (step : ℚ)⌉.toNat →
      fits digits ((construct x0 u span step).elapsed_ +
        ((k : Int) + 1) * (construct x0 u span step).step_) :=
    fun k hk => fits_between digits _ _ _ k (le_of_lt hstep) hwf hsum hk
  have heq : ∀ k : Nat, k ≤ ⌈(span : ℚ) / (step : ℚ)⌉.toNat →
      advance_n_fixed digits S D k (construct x0 u span step) =
        advance_n S D k (construct x0 u span step) :=
    fun k hk => advance_n_fixed_eq S D digits k _ (fun j hj => hfits j (by omega))
  have hlive : ∀ k, k < ⌈(span : ℚ) / (step : ℚ)⌉.toNat →
      at_end (advance_n_fixed digits S D k (construct x0 u span step)) = false := by
    intro k hk
    rw [heq k (le_of_lt hk), at_end_advance_n_false]
    simpa [construct] using hlt k hk
  have hend : at_end (advance_n_fixed digits S D ⌈(span : ℚ) / (step : ℚ)⌉.toNat
      (construct x0 u span step)) = true := by
    rw [heq _ (le_refl _), at_end_advance_n]
    simpa [construct] using hge
  refine ⟨?_, heq _ (le_refl _)⟩
  intro fuel hfuel
  rw [iterate_fixed_eq_observations S D digits _ _ fuel hfuel hlive hend]
  rw [observations_fixed_eq S D digits _ _ (fun k hk => hfits k (by omega))]

/-- Four steps of 300 ticks reach 1000 ticks inside a 16-bit rep. -/
theorem ceil_1000_300 :
    ⌈((1000 : Int) : ℚ) / ((300 : Int) : ℚ)⌉ * 300 < (2 : Int) ^ 15 := by
  have h : ⌈((1000 : Int) : ℚ) / ((300 : Int) : ℚ)⌉ = 4 := by
    rw [Int.ceil_eq_iff]
    norm_num
  rw [h]
  norm_num

/-- Two steps of 20000 ticks are what 30000 ticks would take. -/
theorem ceil_30000_20000 : ⌈((30000 : Int) : ℚ) / ((20000 : Int) : ℚ)⌉ = 2 := by
  rw [Int.ceil_eq_iff]
  norm_num

end

/-! ## The claims -/

section
variable {M : Model} (S : Stepper M) (D : Duration M)

/-- C2: a freshly constructed generator has elapsed time zero and state `x0`,
so `operator*` yields `(0, x0)`; its span and step are the ones given and its
system is `state_transition u`. -/
theorem C2_construct (x0 : M.state) (u : M.input) (span step : Int) :
    (construct x0 u span step).elapsed_ = 0 ∧
      (construct x0 u span step).state_ = x0 ∧
      op_deref (construct x0 u span step) = (0, x0) ∧
      (construct x0 u span step).span_ = span ∧
      (construct x0 u span step).step_ = step ∧
      (construct x0 u span step).system_ = M.state_transition u := by
  refine ⟨?_, ?_, ?_, ?_, ?_, ?_⟩ <;> rfl

/-- C4 as stated fails: the sentinel is at its end, yet it compares unequal to
a live generator, on either side of `==`. -/
theorem C4_counterexample :
    ¬ (∀ a b : owning_step_iterator decay,
        at_end a = true ∨ at_end b = true → op_eq a b = true) := by
  intro h
  have h1 := h default_construct live (Or.inl at_end_default)
  revert h1
  simp [op_eq, at_end, live, construct, default_construct]

/-- C4, amended: when either operand is at its end, `a == b` is true exactly
when both operands are at their end, whatever their span, step and elapsed
values. -/
theorem C4_eq_at_end (a b : owning_step_iterator M)
    (h : at_end a = true ∨ at_end b = true) :
    op_eq a b = (at_end a && at_end b) := by
  by_cases hb : at_end b = true
  · simp [op_eq, hb]
  · have ha : at_end a = true := h.resolve_right hb
    have hb2 : at_end b = false := by simpa using hb
    have ha2 := (at_end_iff a).1 ha
    have hb3 := (at_end_eq_false_iff b).1 hb2
    simp only [op_eq, hb2, Bool.and_false, Bool.false_eq_true, if_false]
    by_cases hs : a.span_ = b.span_
    · by_cases he : a.elapsed_ = b.elapsed_
      · omega
      · simp [he]
    · simp [hs]

theorem C4_eq_at_end_witness :
    (at_end (default_construct : owning_step_iterator decay) = true ∨ at_end live = true) ∧
      op_eq default_construct live =
        (at_end (default_construct : owning_step_iterator decay) && at_end live) :=
  ⟨Or.inl at_end_default, C4_eq_at_end default_construct live (Or.inl at_end_default)⟩

/-- C5: two non-terminal generators compare equal iff their span, step and
elapsed values all agree; a difference in any one of the three makes them
unequal. -/
theorem C5_eq_live (a b : owning_step_iterator M)
    (ha : at_end a = false) (hb : at_end b = false) :
    (op_eq a b = true ↔
        a.span_ = b.span_ ∧ a.step_ = b.step_ ∧ a.elapsed_ = b.elapsed_) ∧
      (a.span_ ≠ b.span_ → op_eq a b = false) ∧
      (a.step_ ≠ b.step_ → op_eq a b = false) ∧
      (a.elapsed_ ≠ b.elapsed_ → op_eq a b = false) := by
  have key : op_eq a b = true ↔
      a.span_ = b.span_ ∧ a.step_ = b.step_ ∧ a.elapsed_ = b.elapsed_ := by
    simp [op_eq, hb, and_assoc]
  refine ⟨key, ?_, ?_, ?_⟩
  · intro hne
    cases hq : op_eq a b
    · rfl
    · exact absurd (key.1 hq).1 hne
  · intro hne
    cases hq : op_eq a b
    · rfl
    · exact absurd (key.1 hq).2.1 hne
  · intro hne
    cases hq : op_eq a b
    · rfl
    · exact absurd (key.1 hq).2.2 hne

theorem C5_eq_live_witness :
    at_end live = false ∧ at_end (pre_increment euler milliseconds live) = false ∧
      ((op_eq live (pre_increment euler milliseconds live) = true ↔
          live.span_ = (pre_increment euler milliseconds live).span_ ∧
            live.step_ = (pre_increment euler milliseconds live).step_ ∧
            live.elapsed_ = (pre_increment euler milliseconds live).elapsed_) ∧
        (live.span_ ≠ (pre_increment euler milliseconds live).span_ →
          op_eq live (pre_increment euler milliseconds live) = false) ∧
        (live.step_ ≠ (pre_increment euler milliseconds live).step_ →
          op_eq live (pre_increment euler milliseconds live) = false) ∧
        (live.elapsed_ ≠ (pre_increment euler milliseconds live).elapsed_ →
          op_eq live (pre_increment euler milliseconds live) = false)) :=
  ⟨by decide, by decide,
    C5_eq_live live (pre_increment euler milliseconds live) (by decide) (by decide)⟩

/-- C6: the default-constructed sentinel has span and elapsed zero and is at
its end; two sentinels compare equal; and a generator whose elapsed time has
reached its span compares equal to the sentinel from either side. -/
theorem C6_sentinel (g : owning_step_iterator M) (h : g.elapsed_ ≥ g.span_) :
    (default_construct : owning_step_iterator M).span_ = 0 ∧
      (default_construct : owning_step_iterator M).elapsed_ = 0 ∧
      at_end (default_construct : owning_step_iterator M) = true ∧
      op_eq (default_construct : owning_step_iterator M) default_construct = true ∧
      op_eq g default_construct = true ∧
      op_eq default_construct g = true := by
  have hg : at_end g = true := (at_end_iff g).2 h
  refine ⟨rfl, rfl, at_end_default, ?_, ?_, ?_⟩
  · simp [op_eq, at_end_default]
  · simp [op_eq, at_end_default, hg]
  · simp [op_eq, at_end_default, hg]

theorem C6_sentinel_witness :
    (advance_n euler milliseconds 2 live).elapsed_ ≥ (advance_n euler milliseconds 2 live).span_ ∧
      ((default_construct : owning_step_iterator decay).span_ = 0 ∧
        (default_construct : owning_step_iterator decay).elapsed_ = 0 ∧
        at_end (default_construct : owning_step_iterator decay) = true ∧
        op_eq (default_construct : owning_step_iterator decay) default_construct = true ∧
        op_eq (advance_n euler milliseconds 2 live) default_construct = true ∧
        op_eq default_construct (advance_n euler milliseconds 2 live) = true) :=
  ⟨by decide, C6_sentinel (advance_n euler milliseconds 2 live) (by decide)⟩

/-- C7 as stated fails on a fixed-width rep: with 16-bit ticks, span 30000 and
step 20000 (both positive), the third elapsed value wraps to -25536 and the
traversal makes 18 observations, more than `⌈span / step⌉ + 1 = 3`. -/
theorem C7_counterexample :
    ((0 : Int) < 20000 ∧ (0 : Int) < 30000 ∧ fits 15 30000 ∧ fits 15 20000) ∧
      ∃ obs : List (Int × decay.state),
        (∀ fuel : Nat, 19 ≤ fuel →
          iterate_fixed 15 euler milliseconds fuel (construct (1 : ℚ) () 30000 20000)
            default_construct = some obs) ∧
        obs.length = 18 ∧
        ¬ ((obs.length : Int) ≤ ⌈((30000 : Int) : ℚ) / ((20000 : Int) : ℚ)⌉ + 1) := by
  refine ⟨by decide,
    observations_fixed 15 euler milliseconds 18 (construct (1 : ℚ) () 30000 20000), ?_, ?_, ?_⟩
  · intro fuel hfuel
    apply iterate_fixed_eq_observations euler milliseconds 15 18 _ fuel (by omega)
    · set_option maxRecDepth 4000 in decide
    · set_option maxRecDepth 4000 in decide
  · exact observations_fixed_length euler milliseconds 15 18 _
  · rw [observations_fixed_length, ceil_30000_20000]
    decide

/-- C7, amended: with ticks held in a signed rep of `digits` value bits, a
positive step and a positive span, and `⌈span / step⌉ * step` inside the rep
(the elapsed time reaches the span without overflow), the traversal against
the sentinel terminates (every sufficient fuel returns the same list), the
generator then equals the sentinel, and the number of observations is at most
`⌈span / step⌉ + 1`. -/
theorem C7_terminates (digits : Nat) (x0 : M.state) (u : M.input) (span step : Int)
    (hstep : 0 < step) (hspan : 0 < span)
    (hfit : ⌈(span : ℚ) / (step : ℚ)⌉ * step < 2 ^ digits) :
    ∃ obs : List (Int × M.state),
      (∀ fuel : Nat, ⌈(span : ℚ) / (step : ℚ)⌉ + 1 ≤ (fuel : Int) →
        iterate_fixed digits S D fuel (construct x0 u span step) default_construct =
          some obs) ∧
      op_eq (advance_n_fixed digits S D obs.length (construct x0 u span step))
        default_construct = true ∧
      (obs.length : Int) ≤ ⌈(span : ℚ) / (step : ℚ)⌉ + 1 := by
  obtain ⟨hn, _, hge⟩ := ceil_steps span step hstep hspan
  obtain ⟨hit, hadv⟩ := iterate_fixed_construct S D digits x0 u span step hstep hspan hfit
  refine ⟨observations S D ⌈(span : ℚ) / (step : ℚ)⌉.toNat (construct x0 u span step),
    ?_, ?_, ?_⟩
  · intro fuel hfuel
    exact hit fuel (by omega)
  · rw [observations_length, op_eq_default, hadv, at_end_advance_n]
    simpa [construct] using hge
  · rw [observations_length, hn]
    omega

theorem C7_terminates_witness :
    ((0 : Int) < 300 ∧ (0 : Int) < 1000 ∧
        ⌈((1000 : Int) : ℚ) / ((300 : Int) : ℚ)⌉ * 300 < (2 : Int) ^ 15) ∧
      ∃ obs : List (Int × decay.state),
        (∀ fuel : Nat, ⌈((1000 : Int) : ℚ) / ((300 : Int) : ℚ)⌉ + 1 ≤ (fuel : Int) →
          iterate_fixed 15 euler milliseconds fuel (construct (1 : ℚ) () 1000 300)
            default_construct = some obs) ∧
        op_eq (advance_n_fixed 15 euler milliseconds obs.length
          (construct (1 : ℚ) () 1000 300)) default_construct = true ∧
        (obs.length : Int) ≤ ⌈((1000 : Int) : ℚ) / ((300 : Int) : ℚ)⌉ + 1 :=
  ⟨⟨by decide, by decide, ceil_1000_300⟩,
    C7_terminates euler milliseconds 15 (1 : ℚ) () 1000 300 (by decide) (by decide)
      ceil_1000_300⟩

/-- C8: with a positive span and a non-positive step, after any number of
increments the elapsed time is still below the span, the generator is not at
its end and compares unequal to the sentinel; the traversal exhausts every
fuel. -/
theorem C8_never_terminates (x0 : M.state) (u : M.input) (span step : Int)
    (hspan : 0 < span) (hstep : step ≤ 0) (n : Nat) :
    (advance_n S D n (construct x0 u span step)).elapsed_ < span ∧
      at_end (advance_n S D n (construct x0 u span step)) = false ∧
      op_eq (advance_n S D n (construct x0 u span step)) default_construct = false ∧
      op_ne (advance_n S D n (construct x0 u span step)) default_construct = true ∧
      iterate S D n (construct x0 u span step) default_construct = none := by
  have hel : ∀ k : Nat, (advance_n S D k (construct x0 u span step)).elapsed_ < span := by
    intro k
    rw [construct_elapsed_after]
    have hk : (0 : Int) ≤ (k : Int) := Int.ofNat_nonneg k
    nlinarith
  have hlive : ∀ k : Nat, at_end (advance_n S D k (construct x0 u span step)) = false := by
    intro k
    rw [at_end_eq_false_iff, advance_n_span]
    exact hel k
  refine ⟨hel n, hlive n, ?_, ?_, iterate_eq_none S D n _ hlive⟩
  · rw [op_eq_default]
    exact hlive n
  · rw [op_ne_default, hlive n]
    rfl

theorem C8_never_terminates_witness :
    ((0 : Int) < 1000 ∧ (-500 : Int) ≤ 0) ∧
      (advance_n euler milliseconds 3 (construct (1 : ℚ) () 1000 (-500))).elapsed_ < 1000 ∧
      at_end (advance_n euler milliseconds 3 (construct (1 : ℚ) () 1000 (-500))) = false ∧
      op_eq (advance_n euler milliseconds 3 (construct (1 : ℚ) () 1000 (-500)))
        default_construct = false ∧
      op_ne (advance_n euler milliseconds 3 (construct (1 : ℚ) () 1000 (-500)))
        default_construct = true ∧
      iterate euler milliseconds 3 (construct (1 : ℚ) () 1000 (-500)) default_construct =
        none :=
  ⟨by decide,
    C8_never_terminates euler milliseconds (1 : ℚ) () 1000 (-500) (by decide) (by decide) 3⟩

/-- C9: a generator constructed with a span of zero or less is at its end at
once and compares equal to the sentinel, so the traversal returns with no
observation. -/
theorem C9_empty_span (x0 : M.state) (u : M.input) (span step : Int) (hspan : span ≤ 0) :
    at_end (construct x0 u span step) = true ∧
      op_eq (construct x0 u span step) default_construct = true ∧
      ∀ fuel : Nat,
        iterate S D (fuel + 1) (construct x0 u span step) default_construct = some [] := by
  have hend : at_end (construct x0 u span step) = true := by
    rw [at_end_iff]
    simpa [construct] using hspan
  refine ⟨hend, ?_, ?_⟩
  · rw [op_eq_default]
    exact hend
  · intro fuel
    exact iterate_succ_done S D fuel _ hend

theorem C9_empty_span_witness :
    (0 : Int) ≤ 0 ∧
      at_end (construct (1 : ℚ) () 0 500 : owning_step_iterator decay) = true ∧
      op_eq (construct (1 : ℚ) () 0 500 : owning_step_iterator decay) default_construct =
        true ∧
      ∀ fuel : Nat,
        iterate euler milliseconds (fuel + 1) (construct (1 : ℚ) () 0 500)
          default_construct = some [] :=
  ⟨by decide, C9_empty_span euler milliseconds (1 : ℚ) () 0 500 (by decide)⟩

/-- C10: Scenario B, step 300 ms and span 1000 ms: the elapsed values after
0, 1, 2, 3 increments are 0, 300, 600, 900 ms, each non-terminal; after the
fourth it is 1200 ms, at the end; the traversal against the sentinel returns
exactly four observations, taken at those four times. -/
theorem C10_scenario_B (x0 : M.state) (u : M.input) :
    ((advance_n S D 0 (construct x0 u 1000 300)).elapsed_ = 0 ∧
        at_end (advance_n S D 0 (construct x0 u 1000 300)) = false) ∧
      ((advance_n S D 1 (construct x0 u 1000 300)).elapsed_ = 300 ∧
        at_end (advance_n S D 1 (construct x0 u 1000 300)) = false) ∧
      ((advance_n S D 2 (construct x0 u 1000 300)).elapsed_ = 600 ∧
        at_end (advance_n S D 2 (construct x0 u 1000 300)) = false) ∧
      ((advance_n S D 3 (construct x0 u 1000 300)).elapsed_ = 900 ∧
        at_end (advance_n S D 3 (construct x0 u 1000 300)) = false) ∧
      ((advance_n S D 4 (construct x0 u 1000 300)).elapsed_ = 1200 ∧
        at_end (advance_n S D 4 (construct x0 u 1000 300)) = true) ∧
      ∃ obs : List (Int × M.state),
        (∀ fuel : Nat, 5 ≤ fuel →
          iterate S D fuel (construct x0 u 1000 300) default_construct = some obs) ∧
        obs.length = 4 ∧
        obs.map Prod.fst = [0, 300, 600, 900] := by
  have hel : ∀ k : Nat, (advance_n S D k (construct x0 u 1000 300)).elapsed_ = k * 300 :=
    fun k => construct_elapsed_after S D x0 u 1000 300 k
  have hsp : ∀ k : Nat, (advance_n S D k (construct x0 u 1000 300)).span_ = 1000 :=
    fun k => advance_n_span S D k _
  have hlive : ∀ k : Nat, k < 4 →
      at_end (advance_n S D k (construct x0 u 1000 300)) = false := by
    intro k hk
    rw [at_end_eq_false_iff, hel, hsp]
    omega
  have hend : at_end (advance_n S D 4 (construct x0 u 1000 300)) = true := by
    rw [at_end_iff, hel, hsp]
    norm_num
  refine ⟨⟨?_, hlive 0 (by omega)⟩, ⟨?_, hlive 1 (by omega)⟩, ⟨?_, hlive 2 (by omega)⟩,
    ⟨?_, hlive 3 (by omega)⟩, ⟨?_, hend⟩,
    observations S D 4 (construct x0 u 1000 300), ?_, ?_, ?_⟩
  · rw [hel]; norm_num
  · rw [hel]; norm_num
  · rw [hel]; norm_num
  · rw [hel]; norm_num
  · rw [hel]; norm_num
  · intro fuel hfuel
    exact iterate_eq_observations S D 4 _ fuel (by omega) hlive hend
  · exact observations_length S D 4 _
  · simp [observations, op_deref, pre_increment, increment, construct]

/-- C11: Scenario A, the decay model with explicit Euler over the rationals,
`x0 = 1`, span 1000 ms, step 500 ms: the traversal against the sentinel
returns exactly `(0 ms, 1)` then `(500 ms, 1/2)`, and after the second
increment the elapsed time is 1000 ms, which is at the end. -/
theorem C11_scenario_A :
    (∀ fuel : Nat, 3 ≤ fuel →
        iterate euler milliseconds fuel (construct (1 : ℚ) () 1000 500) default_construct =
          some [((0 : Int), (1 : ℚ)), ((500 : Int), (1 / 2 : ℚ))]) ∧
      (advance_n euler milliseconds 2 (construct (1 : ℚ) () 1000 500)).elapsed_ = 1000 ∧
      at_end (advance_n euler milliseconds 2 (construct (1 : ℚ) () 1000 500)) = true := by
  have hlive : ∀ k : Nat, k < 2 →
      at_end (advance_n euler milliseconds k (construct (1 : ℚ) () 1000 500)) = false := by
    intro k hk
    rw [at_end_advance_n_false]
    simp only [construct]
    omega
  have hend : at_end (advance_n euler milliseconds 2 (construct (1 : ℚ) () 1000 500)) =
      true := by
    rw [at_end_advance_n]
    simp [construct]
  refine ⟨?_, ?_, hend⟩
  · intro fuel hfuel
    rw [iterate_eq_observations euler milliseconds 2 _ fuel (by omega) hlive hend]
    simp only [observations, op_deref, pre_increment, increment, construct, euler,
      milliseconds, decay]
    norm_num
  · rw [construct_elapsed_after]
    norm_num

/-- C12: an increment leaves span, step and system as they were, only state
and elapsed time change; so after any number of increments they still equal
the values fixed at construction. -/
theorem C12_frame (g : owning_step_iterator M) (x0 : M.state) (u : M.input)
    (span step : Int) (n : Nat) :
    ((increment S D g).span_ = g.span_ ∧ (increment S D g).step_ = g.step_ ∧
        (increment S D g).system_ = g.system_) ∧
      increment S D g =
        { g with state_ := (increment S D g).state_, elapsed_ := (increment S D g).elapsed_ } ∧
      ((advance_n S D n (construct x0 u span step)).span_ = span ∧
        (advance_n S D n (construct x0 u span step)).step_ = step ∧
        (advance_n S D n (construct x0 u span step)).system_ = M.state_transition u) := by
  refine ⟨⟨rfl, rfl, rfl⟩, rfl, ?_, ?_, ?_⟩
  · rw [advance_n_span]; rfl
  · rw [advance_n_step]; rfl
  · rw [advance_n_system]; rfl

/-- C13 as stated fails, in two ways: with a negative step an increment lowers
the elapsed time, and on a 16-bit rep with step 20000 the second increment
wraps the elapsed time from 20000 to -25536. -/
theorem C13_counterexample :
    (increment_fixed 15 euler milliseconds (construct (1 : ℚ) () 1000 (-500))).elapsed_ <
        (construct (1 : ℚ) () 1000 (-500) : owning_step_iterator decay).elapsed_ ∧
      (fits 15 (increment_fixed 15 euler milliseconds
          (construct (1 : ℚ) () 30000 20000)).elapsed_ ∧
        (increment_fixed 15 euler milliseconds
          (construct (1 : ℚ) () 30000 20000)).elapsed_ = 20000 ∧
        (increment_fixed 15 euler milliseconds (increment_fixed 15 euler milliseconds
          (construct (1 : ℚ) () 30000 20000))).elapsed_ = -25536) := by
  refine ⟨?_, ?_, ?_, ?_⟩ <;> decide

/-- C13, amended: the elapsed time starts at zero at construction, and, with
ticks held in a signed rep of `digits` value bits, for a generator whose step
is not negative and whose `elapsed + step` is inside the rep an increment
never lowers the elapsed time. -/
theorem C13_elapsed_monotone (digits : Nat) (g : owning_step_iterator M)
    (hstep : 0 ≤ g.step_) (hfit : fits digits (g.elapsed_ + g.step_))
    (x0 : M.state) (u : M.input) (span step : Int) :
    (increment_fixed digits S D g).elapsed_ ≥ g.elapsed_ ∧
      (construct x0 u span step).elapsed_ = 0 := by
  refine ⟨?_, rfl⟩
  rw [increment_fixed_eq S D digits g hfit]
  show g.elapsed_ + g.step_ ≥ g.elapsed_
  omega

theorem C13_elapsed_monotone_witness :
    ((0 : Int) ≤ live.step_ ∧ fits 15 (live.elapsed_ + live.step_)) ∧
      ((increment_fixed 15 euler milliseconds live).elapsed_ ≥ live.elapsed_ ∧
        (construct (1 : ℚ) () 1000 500 : owning_step_iterator decay).elapsed_ = 0) :=
  ⟨by decide,
    C13_elapsed_monotone euler milliseconds 15 live (by decide) (by decide)
      (1 : ℚ) () 1000 500⟩

/-- C14 as stated fails, in two ways: a generator with span zero and a
negative step is at its end when constructed and live after one increment;
and on a 16-bit rep a generator with span and step 20000 is at its end after
one increment and live again after the next, its elapsed time having wrapped
to -25536. -/
theorem C14_counterexample :
    (at_end (construct (1 : ℚ) () 0 (-500) : owning_step_iterator decay) = true ∧
        at_end (advance_n_fixed 15 euler milliseconds 1
          (construct (1 : ℚ) () 0 (-500))) = false) ∧
      (at_end (advance_n_fixed 15 euler milliseconds 1
          (construct (1 : ℚ) () 20000 20000)) = true ∧
        (0 : Int) ≤ (advance_n_fixed 15 euler milliseconds 1
          (construct (1 : ℚ) () 20000 20000)).step_ ∧
        at_end (advance_n_fixed 15 euler milliseconds 1
          (advance_n_fixed 15 euler milliseconds 1
            (construct (1 : ℚ) () 20000 20000))) = false) := by
  refine ⟨⟨?_, ?_⟩, ?_, ?_, ?_⟩ <;> decide

/-- C14, amended: with ticks held in a signed rep of `digits` value bits, take
a generator whose step is not negative and whose elapsed time has reached its
span, and `n` further increments whose last sum `elapsed + n * step` is inside
the rep.  Then the generator is at its end after each of these increments, and
neither form of `operator++` returns it to a non-terminal state: the
pre-increment and what the post-increment leaves behind are at their end, and
the post-increment returns the at-end generator it was called on. -/
theorem C14_single_pass (digits : Nat) (g : owning_step_iterator M)
    (hstep : 0 ≤ g.step_) (hend : g.elapsed_ ≥ g.span_) (hwf : fits digits g.elapsed_)
    (n : Nat) (hfit : g.elapsed_ + (n : Int) * g.step_ < 2 ^ digits) (k : Nat) (hk : k ≤ n) :
    at_end (advance_n_fixed digits S D k g) = true ∧
      (k < n →
        at_end (pre_increment_fixed digits S D (advance_n_fixed digits S D k g)) = true ∧
        at_end (post_increment_fixed digits S D (advance_n_fixed digits S D k g)).2 = true ∧
        (post_increment_fixed digits S D (advance_n_fixed digits S D k g)).1 =
          advance_n_fixed digits S D k g) := by
  have hall : ∀ j : Nat, j ≤ n → at_end (advance_n_fixed digits S D j g) = true := by
    intro j hj
    rw [advance_n_fixed_eq S D digits j g
      (fun i hi => fits_between digits _ _ n i hstep hwf hfit (by omega)), at_end_advance_n]
    have hnn : (0 : Int) ≤ (j : Int) * g.step_ := mul_nonneg (Int.ofNat_nonneg j) hstep
    omega
  refine ⟨hall k hk, fun hlt => ?_⟩
  have hnext := hall (k + 1) (by omega)
  rw [advance_n_fixed_succ] at hnext
  exact ⟨hnext, hnext, rfl⟩

theorem C14_single_pass_witness :
    ((0 : Int) ≤ (advance_n euler milliseconds 2 live).step_ ∧
        (advance_n euler milliseconds 2 live).elapsed_ ≥
          (advance_n euler milliseconds 2 live).span_ ∧
        fits 15 (advance_n euler milliseconds 2 live).elapsed_ ∧
        (advance_n euler milliseconds 2 live).elapsed_ +
          ((5 : Nat) : Int) * (advance_n euler milliseconds 2 live).step_ < 2 ^ 15 ∧
        3 ≤ 5) ∧
      (at_end (advance_n_fixed 15 euler milliseconds 3
          (advance_n euler milliseconds 2 live)) = true ∧
        (3 < 5 →
          at_end (pre_increment_fixed 15 euler milliseconds
            (advance_n_fixed 15 euler milliseconds 3
              (advance_n euler milliseconds 2 live))) = true ∧
          at_end (post_increment_fixed 15 euler milliseconds
            (advance_n_fixed 15 euler milliseconds 3
              (advance_n euler milliseconds 2 live))).2 = true ∧
          (post_increment_fixed 15 euler milliseconds
            (advance_n_fixed 15 euler milliseconds 3
              (advance_n euler milliseconds 2 live))).1 =
            advance_n_fixed 15 euler milliseconds 3
              (advance_n euler milliseconds 2 live))) :=
  ⟨by decide,
    C14_single_pass euler milliseconds 15 (advance_n euler milliseconds 2 live)
      (by decide) (by decide) (by decide) 5 (by decide) 3 (by decide)⟩

/-- C15: the range made by `make_owning_step_range` begins at the generator
constructed from the same arguments and ends at the default-constructed
sentinel; `adapt_rangepair` on a pair returns a range whose `begin()` is the
first component and whose `end()` is the second. -/
theorem C15_range (x0 : M.state) (u : M.input) (span step : Int)
    (b e : owning_step_iterator M) :
    (make_owning_step_range x0 u span step).begin = construct x0 u span step ∧
      (make_owning_step_range x0 u span step).end =
        (default_construct : owning_step_iterator M) ∧
      (adapt_rangepair (b, e)).begin = b ∧ (adapt_rangepair (b, e)).end = e ∧
      adapt_rangepair (b, e) = { begin_ := b, end_ := e } := by
  refine ⟨?_, ?_, ?_, ?_, ?_⟩ <;> rfl

/-- C16 as stated fails on a fixed-width rep: with 16-bit ticks, span 30000 and
step 20000, the traversal of the range makes 18 observations where
`⌈span / step⌉ = 2`, and the observation after the second is taken at the
wrapped elapsed time -25536, not at `2 * step`. -/
theorem C16_counterexample :
    ∃ obs : List (Int × decay.state),
      (∀ fuel : Nat, 19 ≤ fuel →
        iterate_fixed 15 euler milliseconds fuel
          (make_owning_step_range (1 : ℚ) () 30000 20000).begin
          (make_owning_step_range (1 : ℚ) () 30000 20000).end = some obs) ∧
      (obs.length : Int) ≠ ⌈((30000 : Int) : ℚ) / ((20000 : Int) : ℚ)⌉ ∧
      obs.map Prod.fst =
        [0, 20000, -25536, -5536, 14464, -31072, -11072, 8928, 28928, -16608, 3392,
          23392, -22144, -2144, 17856, -27680, -7680, 12320] := by
  refine ⟨observations_fixed 15 euler milliseconds 18 (construct (1 : ℚ) () 30000 20000),
    ?_, ?_, ?_⟩
  · intro fuel hfuel
    apply iterate_fixed_eq_observations euler milliseconds 15 18
      (construct (1 : ℚ) () 30000 20000) fuel (by omega)
    · set_option maxRecDepth 4000 in decide
    · set_option maxRecDepth 4000 in decide
  · rw [observations_fixed_length, ceil_30000_20000]
    decide
  · set_option maxRecDepth 4000 in decide

/-- C16, amended: with ticks held in a signed rep of `digits` value bits, a
positive step and a positive span, and `⌈span / step⌉ * step` inside the rep,
traversing the range made by `make_owning_step_range` returns exactly
`⌈span / step⌉` observations; the `k`-th (from 0) is taken at elapsed time
`k * step` and holds the `k`-fold application of the stepper to `x0`; every
observed elapsed time is strictly below the span. -/
theorem C16_observations (digits : Nat) (x0 : M.state) (u : M.input) (span step : Int)
    (hstep : 0 < step) (hspan : 0 < span)
    (hfit : ⌈(span : ℚ) / (step : ℚ)⌉ * step < 2 ^ digits) :
    ∃ obs : List (Int × M.state),
      (∀ fuel : Nat, ⌈(span : ℚ) / (step : ℚ)⌉ + 1 ≤ (fuel : Int) →
        iterate_fixed digits S D fuel (make_owning_step_range x0 u span step).begin
          (make_owning_step_range x0 u span step).end = some obs) ∧
      (obs.length : Int) = ⌈(span : ℚ) / (step : ℚ)⌉ ∧
      obs = (List.range obs.length).map
        (fun k : Nat =>
          ((k : Int) * step, stepper_fold S D (M.state_transition u) step x0 k)) ∧
      ∀ p ∈ obs, p.1 < span := by
  obtain ⟨hn, hlt, _⟩ := ceil_steps span step hstep hspan
  obtain ⟨hit, _⟩ := iterate_fixed_construct S D digits x0 u span step hstep hspan hfit
  have hobs : observations S D ⌈(span : ℚ) / (step : ℚ)⌉.toNat (construct x0 u span step) =
      (List.range ⌈(span : ℚ) / (step : ℚ)⌉.toNat).map
        (fun k : Nat =>
          ((k : Int) * step, stepper_fold S D (M.state_transition u) step x0 k)) := by
    rw [observations_eq_map]
    exact List.map_congr_left (fun k _ => op_deref_advance_n S D x0 u span step k)
  refine ⟨observations S D ⌈(span : ℚ) / (step : ℚ)⌉.toNat (construct x0 u span step),
    ?_, ?_, ?_, ?_⟩
  · intro fuel hfuel
    exact hit fuel (by omega)
  · rw [observations_length, hn]
  · rw [observations_length]
    exact hobs
  · intro p hp
    rw [hobs, List.mem_map] at hp
    obtain ⟨k, hk, rfl⟩ := hp
    exact hlt k (List.mem_range.1 hk)

theorem C16_observations_witness :
    ((0 : Int) < 300 ∧ (0 : Int) < 1000 ∧
        ⌈((1000 : Int) : ℚ) / ((300 : Int) : ℚ)⌉ * 300 < (2 : Int) ^ 15) ∧
      ∃ obs : List (Int × decay.state),
        (∀ fuel : Nat, ⌈((1000 : Int) : ℚ) / ((300 : Int) : ℚ)⌉ + 1 ≤ (fuel : Int) →
          iterate_fixed 15 euler milliseconds fuel
            (make_owning_step_range (1 : ℚ) () 1000 300).begin
            (make_owning_step_range (1 : ℚ) () 1000 300).end = some obs) ∧
        (obs.length : Int) = ⌈((1000 : Int) : ℚ) / ((300 : Int) : ℚ)⌉ ∧
        obs = (List.range obs.length).map
          (fun k : Nat => ((k : Int) * 300,
            stepper_fold euler milliseconds (decay.state_transition ()) 300 (1 : ℚ) k)) ∧
        ∀ p ∈ obs, p.1 < 1000 :=
  ⟨⟨by decide, by decide, ceil_1000_300⟩,
    C16_observations euler milliseconds 15 (1 : ℚ) () 1000 300 (by decide) (by decide)
      ceil_1000_300⟩

/-- C17: `operator==` is an equivalence relation on generators (reflexive,
symmetric, transitive), and `a == b` holds exactly when both are at their end
or both are non-terminal with equal span, step and elapsed time. -/
theorem C17_equivalence (a b c : owning_step_iterator M) :
    op_eq a a = true ∧
      (op_eq a b = true → op_eq b a = true) ∧
      (op_eq a b = true → op_eq b c = true → op_eq a c = true) ∧
      (op_eq a b = true ↔
        (at_end a = true ∧ at_end b = true) ∨
          (at_end a = false ∧ at_end b = false ∧
            a.span_ = b.span_ ∧ a.step_ = b.step_ ∧ a.elapsed_ = b.elapsed_)) := by
  refine ⟨?_, ?_, ?_, op_eq_iff a b⟩
  · rw [op_eq_iff]
    cases h : at_end a
    · exact Or.inr ⟨rfl, rfl, rfl, rfl, rfl⟩
    · exact Or.inl ⟨rfl, rfl⟩
  · intro hab
    rw [op_eq_iff] at hab ⊢
    rcases hab with ⟨h1, h2⟩ | ⟨h1, h2, h3, h4, h5⟩
    · exact Or.inl ⟨h2, h1⟩
    · exact Or.inr ⟨h2, h1, h3.symm, h4.symm, h5.symm⟩
  · intro hab hbc
    rw [op_eq_iff] at hab hbc ⊢
    rcases hab with ⟨h1, h2⟩ | ⟨h1, h2, h3, h4, h5⟩
    · rcases hbc with ⟨_, k2⟩ | ⟨k1, _⟩
      · exact Or.inl ⟨h1, k2⟩
      · rw [h2] at k1
        exact absurd k1 (by decide)
    · rcases hbc with ⟨k1, _⟩ | ⟨_, k2, k3, k4, k5⟩
      · rw [h2] at k1
        exact absurd k1 (by decide)
      · exact Or.inr ⟨h1, k2, h3.trans k3, h4.trans k4, h5.trans k5⟩

theorem C17_equivalence_witness :
    (op_eq live (construct (2 : ℚ) () 1000 500) = true ∧
        op_eq (construct (2 : ℚ) () 1000 500 : owning_step_iterator decay)
          (construct (3 : ℚ) () 1000 500) = true) ∧
      op_eq (construct (2 : ℚ) () 1000 500) live = true ∧
      op_eq live (construct (3 : ℚ) () 1000 500) = true :=
  ⟨⟨by decide, by decide⟩,
    (C17_equivalence live (construct (2 : ℚ) () 1000 500)
      (construct (3 : ℚ) () 1000 500)).2.1 (by decide),
    (C17_equivalence live (construct (2 : ℚ) () 1000 500)
      (construct (3 : ℚ) () 1000 500)).2.2.1 (by decide) (by decide)⟩

/-- C18: `operator==` looks at neither state nor system: two generators that
agree on span, step and elapsed time compare equal; and `operator!=` is the
negation of `operator==` on every pair. -/
theorem C18_eq_ignores_state (a b : owning_step_iterator M)
    (hspan : a.span_ = b.span_) (hstep : a.step_ = b.step_)
    (hel : a.elapsed_ = b.elapsed_) (c d : owning_step_iterator M) :
    op_eq a b = true ∧ op_ne c d = !(op_eq c d) := by
  refine ⟨?_, rfl⟩
  rw [op_eq_iff]
  cases hb : at_end b
  · refine Or.inr ⟨?_, rfl, hspan, hstep, hel⟩
    have hb2 := (at_end_eq_false_iff b).1 hb
    rw [at_end_eq_false_iff]
    omega
  · refine Or.inl ⟨?_, rfl⟩
    have hb2 := (at_end_iff b).1 hb
    rw [at_end_iff]
    omega

theorem C18_eq_ignores_state_witness :
    ((construct (1 : ℚ) (1 : ℚ) 1000 500 : owning_step_iterator relax).state_ ≠
        (construct (2 : ℚ) (3 : ℚ) 1000 500 : owning_step_iterator relax).state_ ∧
      (construct (1 : ℚ) (1 : ℚ) 1000 500 : owning_step_iterator relax).system_ ≠
        (construct (2 : ℚ) (3 : ℚ) 1000 500 : owning_step_iterator relax).system_) ∧
      (op_eq (construct (1 : ℚ) (1 : ℚ) 1000 500 : owning_step_iterator relax)
          (construct (2 : ℚ) (3 : ℚ) 1000 500) = true ∧
        op_ne (construct (1 : ℚ) (1 : ℚ) 1000 500 : owning_step_iterator relax)
            default_construct =
          !(op_eq (construct (1 : ℚ) (1 : ℚ) 1000 500 : owning_step_iterator relax)
            default_construct)) :=
  ⟨⟨by
      show (1 : ℚ) ≠ 2
      norm_num,
    by
      intro h
      have h1 : (fun x : ℚ => -((1 : ℚ) * x)) = (fun x : ℚ => -((3 : ℚ) * x)) := h
      have h2 := congrFun h1 1
      norm_num at h2⟩,
    C18_eq_ignores_state (construct (1 : ℚ) (1 : ℚ) 1000 500)
      (construct (2 : ℚ) (3 : ℚ) 1000 500) rfl rfl rfl
      (construct (1 : ℚ) (1 : ℚ) 1000 500) default_construct⟩

/-- C19: post-increment returns a copy equal field for field to the generator
as it was before the call and leaves the generator exactly as pre-increment
would; pre-increment returns the incremented generator itself. -/
theorem C19_post_increment (g : owning_step_iterator M) :
    (post_increment S D g).1 = g ∧
      ((post_increment S D g).1.state_ = g.state_ ∧
        (post_increment S D g).1.elapsed_ = g.elapsed_ ∧
        (post_increment S D g).1.span_ = g.span_ ∧
        (post_increment S D g).1.step_ = g.step_) ∧
      (post_increment S D g).2 = pre_increment S D g ∧
      pre_increment S D g = increment S D g := by
  refine ⟨rfl, ⟨rfl, rfl, rfl, rfl⟩, rfl, rfl⟩

end

end dyn
